import Mathlib

/-!
# Formal model of the nansible fleet command-and-control core

A shallow embedding of the nansible repository (control plane `pkg/nansibled`
plus agent `cmd/nansible`) in Lean 4, together with theorems settling the
specification claims about the deploy state machine, host discovery, group
dispatch, the message envelope codec and the agent-side executor.

Conventions:

* Go `time.Time` values are modelled as `Option Nat` (seconds; `none` is the
  zero time, matching `IsZero`), durations as `Nat` in seconds
  (`time.Hour = 3600`, 30 minutes = 1800).
* Bus interaction is modelled by an oracle environment (`BusEnv`) that says,
  for each request/reply attempt, whether a reply arrives, and which of the
  terminal success/error messages (if any) fires during the terminal wait.
* The retry loop of `deploy.Start` iterates while the Go `int` counter
  `retries` is positive; the Lean recursion carries `retries.toNat` as
  structural fuel, which bounds the iterations exactly as the Go loop does.
-/

namespace Nansible

/-! ## Deploy states (source: `deployState` constants in the deploy file) -/

def stateNew : String := ""

def stateSent : String := "sent"

def stateAcked : String := "acked"

def stateSuccess : String := "success"

def stateError : String := "error"

/-- `maxDeployTime = 30 * time.Minute`, in seconds. -/
def maxDeployTime : Nat := 1800

/-- `time.Hour`, the abandonment ceiling used in `deploy.Start`, in seconds. -/
def abandonCeiling : Nat := 3600

/-! ## Data model (source: `pkg/nansibled/models.go` and the deploy file) -/

structure playbook where
  ID : String
  Name : String
  Data : String
deriving DecidableEq

/-- Source: `encryptWithSalt` — the repository stub returns the playbook
content unchanged. -/
def encryptWithSalt (salt pb : String) : String := pb

/-- Source: `playbook.EncryptedString`. -/
def playbook.EncryptedString (pb : playbook) (salt : String) : String :=
  encryptWithSalt salt pb.Data

structure host where
  Name : String
  State : String
  LastDeployedAt : Option Nat
  LastDeployedPlaybook : String
  LastAckedPlaybook : String
  LastAckedAt : Option Nat
  LastSuccessPlaybook : String
  LastSuccessAt : Option Nat
  LastErrorPlaybook : String
  LastErrorAt : Option Nat
  LastSeenAt : Option Nat
deriving DecidableEq

structure deploy where
  ID : String
  StartedAt : Nat
  FinishedAt : Option Nat
  State : String
  Host : String
  Playbook : String
  SuccessAt : Option Nat
  ErrorAt : Option Nat
  AckedAt : Option Nat
  Error : String
deriving DecidableEq

/-- Source: `NansibleMessage` — the JSON dispatch envelope; every field is an
optional (omitempty) string. -/
structure NansibleMessage where
  Host : String := ""
  Playbook : String := ""
  Payload : String := ""
  Deploy : String := ""
  Error : String := ""
deriving DecidableEq

/-- Source: `newDeploy` — note the hardcoded ID (`d.ID = "abcd"`, the
`uuid.New().String()` call is commented out in the source). -/
def newDeploy (hst : host) (pb : playbook) : deploy :=
  { ID := "abcd", StartedAt := 0, FinishedAt := none, State := stateNew,
    Host := hst.Name, Playbook := pb.Name, SuccessAt := none, ErrorAt := none,
    AckedAt := none, Error := "" }

/-- Condition polled by `deploy.Acked` (source:
`for dpy.AckedAt.IsZero() && dpy.ErrorAt.IsZero() { ... }`): the notification
channel is closed exactly when this becomes true. -/
def ackedChanReady (d : deploy) : Bool :=
  !(d.AckedAt.isNone && d.ErrorAt.isNone)

/-! ## Bus oracle for one `deploy.Start` run -/

/-- Oracle describing how the bus behaves during one `deploy.Start` run:
`reply k` is the ack payload received by the `k`-th request/reply attempt
(`none` = timeout after `interval`); `replyDelay k` is how long a successful
attempt took; `terminal` is the first terminal message to fire during the
terminal-outcome wait (`some (true, data)` on the success topic,
`some (false, data)` on the error topic, `none` if the 30-minute context
deadline elapses with no message), `terminalDelay` its arrival time offset. -/
structure BusEnv where
  reply : Nat → Option String
  replyDelay : Nat → Nat
  terminal : Option (Bool × String)
  terminalDelay : Nat

structure LoopResult where
  d : deploy
  h : host
  clock : Nat
  abandoned : Bool
  sends : List NansibleMessage
deriving DecidableEq

structure StartResult where
  d : deploy
  h : host
  clock : Nat
  enteredTerminalWait : Bool
  sends : List NansibleMessage
deriving DecidableEq

/-- The retry loop of `deploy.Start` (source lines: `for retries > 0 { ... }`).
`fuel` is `retries.toNat` at the top call and stays in lockstep with the Go
counter: the loop body runs only while `0 < retries`, each timeout iteration
decrements `retries` (and the fuel). `k` indexes the attempts for the oracle;
`now` is the current clock. On a reply the deploy is acked and the loop breaks;
on a timeout the ceiling `time.Since(StartedAt) > time.Hour` is checked before
the budget is decremented, and exceeding it abandons the deploy (early
`return`, reported in `abandoned`). -/
def startLoop (env : BusEnv) (interval : Nat) (pb : playbook) :
    Nat → Int → Nat → deploy → host → Nat → List NansibleMessage → LoopResult
  | 0, _, _, d, h, now, sends =>
      { d := d, h := h, clock := now, abandoned := false, sends := sends }
  | fuel + 1, retries, k, d, h, now, sends =>
      if 0 < retries then
        let d1 : deploy := { d with State := stateSent }
        let h1 : host := { h with State := stateSent, LastDeployedAt := some now }
        let nsg : NansibleMessage :=
          { Host := h1.Name, Playbook := d1.Playbook,
            Payload := pb.EncryptedString h1.Name, Deploy := d1.ID }
        let sends1 := sends ++ [nsg]
        match env.reply k with
        | some data =>
            let now1 := now + env.replyDelay k
            { d := { d1 with State := stateAcked }
              h := { h1 with
                      State := stateAcked
                      LastAckedAt := some now1
                      LastAckedPlaybook := data }
              clock := now1, abandoned := false, sends := sends1 }
        | none =>
            let now1 := now + interval
            if d1.StartedAt + abandonCeiling < now1 then
              { d := { d1 with
                        State := stateError
                        ErrorAt := some now1
                        Error := "abandoned" }
                h := { h1 with
                        State := stateError
                        LastErrorAt := some now1
                        LastErrorPlaybook := "" }
                clock := now1, abandoned := true, sends := sends1 }
            else
              startLoop env interval pb fuel (retries - 1) (k + 1) d1 h1 now1 sends1
      else
        { d := d, h := h, clock := now, abandoned := false, sends := sends }

/-- The deploy record at loop entry: `dpy.StartedAt = time.Now()`. -/
def startDeploy (d0 : deploy) (now0 : Nat) : deploy :=
  { d0 with StartedAt := now0 }

/-- The host record at loop entry:
`dpy.hst.LastDeployedPlaybook = dpy.pb.Name`. -/
def startHost (h0 : host) (pb : playbook) : host :=
  { h0 with LastDeployedPlaybook := pb.Name }

/-- The retry loop as run by `deploy.Start` from its initial state. -/
def startLoopOf (env : BusEnv) (retries : Int) (interval : Nat)
    (d0 : deploy) (h0 : host) (pb : playbook) (now0 : Nat) : LoopResult :=
  startLoop env interval pb retries.toNat retries 0
    (startDeploy d0 now0) (startHost h0 pb) now0 []

/-- Source: `deploy.Start(retries, interval)`. After the retry loop, unless
the deploy was abandoned (early `return`), both terminal topics are subscribed
and the run blocks until either handler fires or the `maxDeployTime` context
deadline elapses; the deferred statements then set `FinishedAt` and close
`done`. Note that the deadline case mutates nothing besides `FinishedAt`, and
that neither handler assigns `dpy.SuccessAt`, `dpy.ErrorAt` or `dpy.AckedAt`. -/
def deployStart (env : BusEnv) (retries : Int) (interval : Nat)
    (d0 : deploy) (h0 : host) (pb : playbook) (now0 : Nat) : StartResult :=
  let r := startLoopOf env retries interval d0 h0 pb now0
  if r.abandoned then
    { d := { r.d with FinishedAt := some r.clock }, h := r.h, clock := r.clock,
      enteredTerminalWait := false, sends := r.sends }
  else
    match env.terminal with
    | none =>
        let t := r.clock + maxDeployTime
        { d := { r.d with FinishedAt := some t }, h := r.h, clock := t,
          enteredTerminalWait := true, sends := r.sends }
    | some (true, data) =>
        let t := r.clock + env.terminalDelay
        { d := { r.d with State := stateSuccess, FinishedAt := some t }
          h := { r.h with
                  State := stateSuccess
                  LastSuccessAt := some t
                  LastSuccessPlaybook := data }
          clock := t, enteredTerminalWait := true, sends := r.sends }
    | some (false, data) =>
        let t := r.clock + env.terminalDelay
        { d := { r.d with
                  State := stateError
                  Error := "host error"
                  FinishedAt := some t }
          h := { r.h with
                  State := stateError
                  LastErrorAt := some t
                  LastErrorPlaybook := data }
          clock := t, enteredTerminalWait := true, sends := r.sends }

/-! ## The JSON envelope codec

`NansibleMessage.Bytes` is `json.Marshal` of the struct above and
`ParseNanMsg` is `json.Unmarshal`; both are modelled here at the rune level
(`List Char`). The encoder mirrors Go's `encoding/json` string escaping (with
HTML escaping on, as `json.Marshal` uses): quote, backslash, `\n`, `\r`, `\t`,
other control runes as `\u00XX`, and `<`, `>`, `&`, U+2028, U+2029 as `\uXXXX`;
struct fields are emitted in declaration order and `omitempty` drops empty
strings. The decoder is a recursive-descent parser for the whitespace-free
string-valued JSON objects the encoder produces (the encoder never emits
whitespace), assigning known keys and skipping unknown ones, and rejecting
trailing input as `json.Unmarshal` does. -/

/-- Lowercase hex digit, as Go's `encoding/json` emits in `\u00xx` escapes. -/
def hexDigit (n : Nat) : Char :=
  if n < 10 then Char.ofNat (48 + n) else Char.ofNat (87 + n)

/-- Escape one rune the way `encoding/json`'s string encoder does. -/
def escChar (c : Char) : List Char :=
  if c = '"' then ['\\', '"']
  else if c = '\\' then ['\\', '\\']
  else if c = '\n' then ['\\', 'n']
  else if c = '\r' then ['\\', 'r']
  else if c = '\t' then ['\\', 't']
  else if c.toNat < 32 then
    ['\\', 'u', '0', '0', hexDigit (c.toNat / 16), hexDigit (c.toNat % 16)]
  else if c = '<' then ['\\', 'u', '0', '0', '3', 'c']
  else if c = '>' then ['\\', 'u', '0', '0', '3', 'e']
  else if c = '&' then ['\\', 'u', '0', '0', '2', '6']
  else if c.toNat = 8232 then ['\\', 'u', '2', '0', '2', '8']
  else if c.toNat = 8233 then ['\\', 'u', '2', '0', '2', '9']
  else [c]

def escapeChars : List Char → List Char
  | [] => []
  | c :: cs => escChar c ++ escapeChars cs

/-- A JSON string literal for `s`: quote, escaped runes, quote. -/
def encodeString (s : String) : List Char :=
  '"' :: (escapeChars s.data ++ ['"'])

/-- One object member, `"name":"value"`. -/
def fieldEnc (name v : String) : List Char :=
  encodeString name ++ ':' :: encodeString v

/-- The members `json.Marshal` emits for an envelope: fields in struct
declaration order, empty strings dropped by `omitempty`. -/
def entriesOf (m : NansibleMessage) : List (String × String) :=
  [("host", m.Host), ("playbook", m.Playbook), ("payload", m.Payload),
   ("deploy", m.Deploy), ("error", m.Error)].filter (fun p => !(p.2 == ""))

def encEntries : List (String × String) → List Char
  | [] => []
  | [(n, v)] => fieldEnc n v
  | (n, v) :: rest => fieldEnc n v ++ ',' :: encEntries rest

/-- Model of `NansibleMessage.Bytes` (`json.Marshal` of the envelope). -/
def nanBytes (m : NansibleMessage) : List Char :=
  '{' :: (encEntries (entriesOf m) ++ ['}'])

def hexVal (c : Char) : Option Nat :=
  if '0' ≤ c ∧ c ≤ '9' then some (c.toNat - 48)
  else if 'a' ≤ c ∧ c ≤ 'f' then some (c.toNat - 87)
  else if 'A' ≤ c ∧ c ≤ 'F' then some (c.toNat - 55)
  else none

def unescapeChar (c : Char) : Option Char :=
  if c = '"' then some '"'
  else if c = '\\' then some '\\'
  else if c = '/' then some '/'
  else if c = 'n' then some '\n'
  else if c = 'r' then some '\r'
  else if c = 't' then some '\t'
  else if c = 'b' then some (Char.ofNat 8)
  else if c = 'f' then some (Char.ofNat 12)
  else none

/-- Parse the body of a JSON string literal (the opening quote already
consumed), returning the decoded runes and the input after the closing
quote. -/
def parseStr : List Char → Option (List Char × List Char)
  | [] => none
  | c :: rest =>
    if c = '"' then some ([], rest)
    else if c = '\\' then
      match rest with
      | [] => none
      | e :: rest2 =>
        if e = 'u' then
          match rest2 with
          | a :: b :: c2 :: d :: rest3 =>
            match hexVal a, hexVal b, hexVal c2, hexVal d with
            | some x, some y, some z, some w =>
              match parseStr rest3 with
              | some (cs, r) =>
                  some (Char.ofNat (((x * 16 + y) * 16 + z) * 16 + w) :: cs, r)
              | none => none
            | _, _, _, _ => none
          | _ => none
        else
          match unescapeChar e with
          | some u =>
            match parseStr rest2 with
            | some (cs, r) => some (u :: cs, r)
            | none => none
          | none => none
    else
      match parseStr rest with
      | some (cs, r) => some (c :: cs, r)
      | none => none

/-- Assign a decoded member to the envelope field with that JSON key
(`json.Unmarshal` drops unknown keys). -/
def setField (m : NansibleMessage) (k v : List Char) : NansibleMessage :=
  if k = "host".data then { m with Host := ⟨v⟩ }
  else if k = "playbook".data then { m with Playbook := ⟨v⟩ }
  else if k = "payload".data then { m with Payload := ⟨v⟩ }
  else if k = "deploy".data then { m with Deploy := ⟨v⟩ }
  else if k = "error".data then { m with Error := ⟨v⟩ }
  else m

/-- Parse the members of a string-valued object (opening brace already
consumed, object known non-empty), folding them into `m`. The fuel is the
input length at the top call; one unit per member is consumed, which the
input length always covers. -/
def parseMembers : Nat → List Char → NansibleMessage →
    Option (NansibleMessage × List Char)
  | 0, _, _ => none
  | fuel + 1, s, m =>
    match s with
    | [] => none
    | c :: rest =>
      if c = '"' then
        match parseStr rest with
        | none => none
        | some (key, rest1) =>
          match rest1 with
          | ':' :: d :: rest2 =>
            if d = '"' then
              match parseStr rest2 with
              | none => none
              | some (v, rest3) =>
                let m1 := setField m key v
                match rest3 with
                | ',' :: rest4 => parseMembers fuel rest4 m1
                | '}' :: rest4 => some (m1, rest4)
                | _ => none
            else none
          | _ => none
      else none

/-- Model of `ParseNanMsg` (`json.Unmarshal` into a fresh envelope). -/
def parseNanMsg (data : List Char) : Option NansibleMessage :=
  match data with
  | '{' :: rest =>
    match rest with
    | ['}'] => some {}
    | _ =>
      match parseMembers rest.length rest {} with
      | some (m, rest2) => if rest2 = [] then some m else none
      | none => none
  | _ => none

/-! ## Agent executor (source: `cmd/nansible/main.go`) -/

/-- Source: `md5PB` — the repository stub returns the empty string. -/
def md5PB (pb : String) : String := ""

/-- Source: `decryptPlaybook` — the repository stub returns its input
unchanged. -/
def decryptPlaybook (data : String) : String := data

/-- Agent-side handling of one inbound job message (the body of the
`for msg := range msgs` loop in the agent main), as the list of publishes it
issues, in order, as `(topic, payload)` pairs. `deployRun pb` abstracts
`dp.Deploy(pb)`: the captured combined output together with whether the
subprocess exited with failure (`err != nil`). Note the source publishes to
the error topic when the subprocess failed and then publishes to the success
topic unconditionally — there is no `continue` or `else` after the error
publish. -/
def agentHandleMsg (selfHost replySubj : String) (data : List Char)
    (deployRun : String → List Char × Bool) : List (String × List Char) :=
  match parseNanMsg data with
  | none => [(replySubj, [])]
  | some m =>
    let pb := decryptPlaybook m.Playbook
    let sum := md5PB pb
    let (out, failed) := deployRun pb
    [(replySubj, sum.data)] ++
      (if failed then [("nansible." ++ selfHost ++ ".playbook.error", out)]
       else []) ++
      [("nansible." ++ selfHost ++ ".playbook.success", out)]

/-- The terminal-outcome publishes among an agent's publishes for one job:
those on the host's success or error topic. -/
def terminalPublishes (selfHost : String) (pubs : List (String × List Char)) :
    List (String × List Char) :=
  pubs.filter (fun p =>
    p.1 == "nansible." ++ selfHost ++ ".playbook.error" ||
    p.1 == "nansible." ++ selfHost ++ ".playbook.success")

/-- Source: `type deployer struct { mu *sync.Mutex; curr *os.Process }`.
Pointers are modelled as `Option`: `none` is Go `nil`. -/
structure deployer where
  mu : Option Unit := none
  curr : Option Unit := none
deriving DecidableEq

/-- The executor the agent main constructs: `dp := deployer{}` — the zero
value, whose `mu` field is a nil pointer. -/
def mainDeployer : deployer := {}

/-- Outcome of `deployer.Deploy`: either a nil-pointer fault before the
subprocess is started, or a completed run with captured output and failure
flag. -/
inductive DeployOutcome where
  | nilMutexDeref
  | ran (out : List Char) (failed : Bool)
deriving DecidableEq

/-- Source: `deployer.Deploy` — its first statement is `dp.mu.Lock()`, which
dereferences the mutex pointer: with `mu = nil` it panics before
`exec.Command` runs. `execRun` abstracts the `ansible-playbook` subprocess
(captured combined output, failure flag). -/
def deployerDeploy (dp : deployer) (execRun : List Char × Bool) : DeployOutcome :=
  match dp.mu with
  | none => DeployOutcome.nilMutexDeref
  | some _ => DeployOutcome.ran execRun.1 execRun.2

/-! ## Host discovery (source: `pkg/nansibled/bus.go`) -/

/-- A fresh Host record as discovery creates it:
`host{Name: h, State: stateNew, LastSeenAt: now}` (all other fields zero). -/
def freshHost (h : String) (now : Nat) : host :=
  { Name := h, State := stateNew, LastDeployedAt := none,
    LastDeployedPlaybook := "", LastAckedPlaybook := "", LastAckedAt := none,
    LastSuccessPlaybook := "", LastSuccessAt := none, LastErrorPlaybook := "",
    LastErrorAt := none, LastSeenAt := some now }

/-- What one discovery cycle leaves at key `h`: touch the last-seen timestamp
of an existing record, or create a fresh one. -/
def touchOrCreate (h : String) (now : Nat) : Option host → host
  | some r => { r with LastSeenAt := some now }
  | none => freshHost h now

/-- Per-host body of `Server.identifyAndSave`: `Exists(h)` (error → log and
`continue`); if found, `SaveFields(["LastSeenAt"], ...)` — a partial update
writing only that field; if absent, `Save` a fresh record. The host store is
modelled as the keyed map the persistence layer maintains; `existsFail h` and
`saveFail h` say whether the respective store call for `h` errors (such
errors are logged and skipped). -/
def identifyStep (now : Nat) (existsFail saveFail : String → Bool)
    (store : String → Option host) (h : String) : String → Option host :=
  if existsFail h then store
  else
    match store h with
    | some r =>
      if saveFail h then store
      else fun n => if n = h then some { r with LastSeenAt := some now } else store n
    | none =>
      if saveFail h then store
      else fun n => if n = h then some (freshHost h now) else store n

/-- Source: `Server.identifyAndSave` — the reconciliation pass over the host
identifiers collected during one discovery window. -/
def identifyAndSave (now : Nat) (existsFail saveFail : String → Bool)
    (store : String → Option host) (hosts : List String) :
    String → Option host :=
  hosts.foldl (identifyStep now existsFail saveFail) store

/-! ## Group dispatch (source: `Server.handleDeployGroup`) -/

/-- Go map assignment `m[k] = v` on an association list with unique keys:
replace an existing entry in place, otherwise append. -/
def upsert (m : List (String × String)) (k v : String) :
    List (String × String) :=
  if m.any (fun p => p.1 = k) then
    m.map (fun p => if p.1 = k then (k, v) else p)
  else m ++ [(k, v)]

/-- Go map lookup on the association list. -/
def getv : List (String × String) → String → Option String
  | [], _ => none
  | p :: rest, q => if p.1 = q then some p.2 else getv rest q

/-- Persistence oracle for one group dispatch: the outcome of
`svr.db.hosts.Find(hostname, ...)` per hostname, and of
`svr.db.deploys.Save(dply)` per constructed deploy (`some msg` = the call
errors with that message). -/
structure DispatchEnv where
  hostFind : String → Except String host
  deploySaveErr : deploy → Option String

/-- One iteration of the `for _, hostname := range g.Hosts` loop in
`handleDeployGroup`, threading the `res["errors"]` / `res["started"]` maps:
a failed host lookup or deploy save records the error message under the
hostname and continues; otherwise the new deploy's ID is recorded under the
hostname in `started`. -/
def deployGroupStep (env : DispatchEnv) (pb : playbook)
    (acc : List (String × String) × List (String × String)) (hostname : String) :
    List (String × String) × List (String × String) :=
  match env.hostFind hostname with
  | Except.error e => (upsert acc.1 hostname e, acc.2)
  | Except.ok h =>
    let dply := newDeploy h pb
    match env.deploySaveErr dply with
    | some e => (upsert acc.1 hostname e, acc.2)
    | none => (acc.1, upsert acc.2 hostname dply.ID)

structure DispatchResult where
  errors : List (String × String)
  started : List (String × String)
  code : Nat
deriving DecidableEq

/-- Source: the per-host fan-out of `Server.handleDeployGroup` (after the
group and playbook were resolved), with its final status code:
`202` if at least one host started, else `500`. -/
def handleDeployGroup (env : DispatchEnv) (pb : playbook)
    (hosts : List String) : DispatchResult :=
  let r := hosts.foldl (deployGroupStep env pb) ([], [])
  { errors := r.1, started := r.2,
    code := if r.2.length = 0 then 500 else 202 }

/-! ## Concrete fixtures used by witnesses and counterexamples -/

def pbA : playbook := { ID := "pb1", Name := "pb1", Data := "contents" }

def hostA : host := freshHost "web1" 0

def deployA : deploy := newDeploy hostA pbA

/-- A bus on which no request/reply attempt is ever answered and no terminal
message fires. -/
def envSilent : BusEnv := ⟨fun _ => none, fun _ => 0, none, 0⟩

/-- A bus that acks every request/reply attempt but delivers no terminal
message before the deadline. -/
def envAck : BusEnv := ⟨fun _ => some "cs", fun _ => 1, none, 0⟩

/-- A two-host store fixture for the discovery witness. -/
def storeW : String → Option host :=
  fun n => if n = "web1" then some (freshHost "web1" 3) else none

/-- Persistence fixture for the dispatch witness: host `bad` fails its
lookup, host `sad` fails its deploy save, everything else starts. -/
def envDispatch : DispatchEnv :=
  { hostFind := fun n =>
      if n = "bad" then Except.error "not found" else Except.ok (freshHost n 0)
    deploySaveErr := fun dp =>
      if dp.Host = "sad" then some "save failed" else none }

/-- Printable characters in the sense of the round-trip claim: the ASCII
printable range. -/
def printableB (c : Char) : Bool :=
  32 ≤ c.toNat && c.toNat ≤ 126

/-! ## Theorems -/

/-- C1: the agent's per-message handler, evaluated at a job whose subprocess
exits with failure, publishes the captured output to the error topic AND then
unconditionally to the success topic — two terminal publishes for one job,
because the error branch is not followed by `continue` or `else`. This
contradicts the claim that exactly one of the two terminal messages is
published per completed job. -/
theorem c1_both_terminal_publishes :
    agentHandleMsg "web1" "_INBOX.1"
        (nanBytes { Host := "web1", Playbook := "pb", Payload := "p", Deploy := "abcd" })
        (fun _ => ("boom".data, true)) =
      [("_INBOX.1", []),
       ("nansible.web1.playbook.error", "boom".data),
       ("nansible.web1.playbook.success", "boom".data)] ∧
    (terminalPublishes "web1"
        (agentHandleMsg "web1" "_INBOX.1"
          (nanBytes { Host := "web1", Playbook := "pb", Payload := "p", Deploy := "abcd" })
          (fun _ => ("boom".data, true)))).length = 2 := by
  decide

/-- C3: a deploy started with retries = 0 performs no send attempt at all —
the loop `for retries > 0` never runs — and proceeds directly to the
terminal-outcome wait, contradicting the claim that R = 0 retries forever
(bounded only by the abandonment ceiling) and still performs send attempts. -/
theorem c3_zero_retries_zero_attempts (env : BusEnv) (interval : Nat)
    (d0 : deploy) (h0 : host) (pb : playbook) (now0 : Nat) :
    (deployStart env 0 interval d0 h0 pb now0).sends = [] ∧
    (deployStart env 0 interval d0 h0 pb now0).enteredTerminalWait = true := by
  rcases henv : env.terminal with _ | ⟨b, s⟩
  · simp [deployStart, startLoopOf, startLoop, henv]
  · cases b <;> simp [deployStart, startLoopOf, startLoop, henv]

/-- C5: `newDeploy` hardcodes the deploy ID to `"abcd"` (the UUID generation
is commented out in the source), so the deploys of any two dispatch attempts
share the same ID — contradicting the claim that every dispatch attempt
generates its own fresh ID. -/
theorem c5_deploy_ids_all_equal (h1 : host) (p1 : playbook) (h2 : host)
    (p2 : playbook) :
    (newDeploy h1 p1).ID = "abcd" ∧
    (newDeploy h2 p2).ID = (newDeploy h1 p1).ID :=
  ⟨rfl, rfl⟩

/-- C6: a deploy whose first request/reply attempt is acked reaches the
`acked` state, yet the condition polled by the `Acked()` notification channel
stays false — `deploy.Start` never assigns `dpy.AckedAt` (only the host's
`LastAckedAt`), so a synchronous caller blocked on the channel is not
unblocked by the ack, contradicting the claim. -/
theorem c6_ack_not_observable_on_channel :
    (deployStart envAck 5 5 deployA hostA pbA 0).d.State = stateAcked ∧
    (deployStart envAck 5 5 deployA hostA pbA 0).d.AckedAt = none ∧
    ackedChanReady (deployStart envAck 5 5 deployA hostA pbA 0).d = false := by
  decide

/-- C10: the agent main constructs its executor as the zero value
`deployer{}`, whose mutex field is a nil pointer, and the first statement of
`Deploy` dereferences it — so every inbound job faults before the subprocess
is started, and the lock acquisition is never safely reachable with this
constructor. -/
theorem c10_nil_mutex_faults (out : List Char) (failed : Bool) :
    mainDeployer.mu = none ∧
    deployerDeploy mainDeployer (out, failed) = DeployOutcome.nilMutexDeref :=
  ⟨rfl, rfl⟩

/-- C4 counterexample: a deploy that is acked on its first attempt and then
sees the 30-minute terminal deadline elapse with neither a success nor an
error message does NOT end in the Error state with reason "timeout": it
finishes still in the `acked` state with an empty error — the deadline branch
of `deploy.Start` mutates nothing. -/
theorem c4_counterexample :
    (deployStart envAck 5 5 deployA hostA pbA 0).enteredTerminalWait = true ∧
    envAck.terminal = none ∧
    ¬((deployStart envAck 5 5 deployA hostA pbA 0).d.State = stateError ∧
      (deployStart envAck 5 5 deployA hostA pbA 0).d.Error = "timeout") := by
  decide

/-- C4 (amended): if the terminal-outcome deadline elapses with neither a
success nor an error message, the deploy finishes — `FinishedAt` is set and
`done` closes — with its state and error fields (and its host record) left
exactly as the retry loop left them; no "timeout" error is recorded. -/
theorem c4_deadline_leaves_outcome_unchanged (env : BusEnv) (retries : Int)
    (interval : Nat) (d0 : deploy) (h0 : host) (pb : playbook) (now0 : Nat)
    (hterm : env.terminal = none)
    (hnab : (startLoopOf env retries interval d0 h0 pb now0).abandoned = false) :
    (deployStart env retries interval d0 h0 pb now0).d.State =
      (startLoopOf env retries interval d0 h0 pb now0).d.State ∧
    (deployStart env retries interval d0 h0 pb now0).d.Error =
      (startLoopOf env retries interval d0 h0 pb now0).d.Error ∧
    (deployStart env retries interval d0 h0 pb now0).d.FinishedAt =
      some ((startLoopOf env retries interval d0 h0 pb now0).clock + maxDeployTime) ∧
    (deployStart env retries interval d0 h0 pb now0).h =
      (startLoopOf env retries interval d0 h0 pb now0).h ∧
    (deployStart env retries interval d0 h0 pb now0).enteredTerminalWait = true := by
  simp [deployStart, hterm, hnab]

/-- C4 witness: the amended statement holds at the concrete acked-then-silent
run of the counterexample. -/
theorem c4_amended_witness :
    (deployStart envAck 5 5 deployA hostA pbA 0).d.State =
      (startLoopOf envAck 5 5 deployA hostA pbA 0).d.State ∧
    (deployStart envAck 5 5 deployA hostA pbA 0).d.Error =
      (startLoopOf envAck 5 5 deployA hostA pbA 0).d.Error ∧
    (deployStart envAck 5 5 deployA hostA pbA 0).d.FinishedAt =
      some ((startLoopOf envAck 5 5 deployA hostA pbA 0).clock + maxDeployTime) ∧
    (deployStart envAck 5 5 deployA hostA pbA 0).h =
      (startLoopOf envAck 5 5 deployA hostA pbA 0).h ∧
    (deployStart envAck 5 5 deployA hostA pbA 0).enteredTerminalWait = true :=
  c4_deadline_leaves_outcome_unchanged envAck 5 5 deployA hostA pbA 0 rfl (by decide)

/-- Helper for C2: if the next `k + 1` request/reply attempts all time out,
the retry budget covers them, and the elapsed time passes the abandonment
ceiling by the end of them, then the retry loop abandons the deploy: Error
state with message "abandoned", error timestamp recorded, host in Error —
regardless of how large the remaining budget is. -/
theorem startLoop_abandons (env : BusEnv) (interval : Nat) (pb : playbook) :
    ∀ (k fuel : Nat) (retries : Int) (j : Nat) (d : deploy) (h : host)
      (now : Nat) (sends : List NansibleMessage),
      (∀ i, i ≤ k → env.reply (j + i) = none) →
      k < fuel → (k : Int) < retries →
      d.StartedAt + abandonCeiling < now + (k + 1) * interval →
      (startLoop env interval pb fuel retries j d h now sends).abandoned = true ∧
      (startLoop env interval pb fuel retries j d h now sends).d.State = stateError ∧
      (startLoop env interval pb fuel retries j d h now sends).d.Error = "abandoned" ∧
      (startLoop env interval pb fuel retries j d h now sends).d.ErrorAt.isSome = true ∧
      (startLoop env interval pb fuel retries j d h now sends).h.State = stateError := by
  intro k
  induction k with
  | zero =>
    intro fuel retries j d h now sends hto hfuel hbud hceil
    obtain ⟨f, rfl⟩ : ∃ f, fuel = f + 1 := ⟨fuel - 1, by omega⟩
    have hr : (0 : Int) < retries := by exact_mod_cast hbud
    have hrep : env.reply j = none := by simpa using hto 0 (Nat.le_refl 0)
    have hc : d.StartedAt + abandonCeiling < now + interval := by
      simpa using hceil
    simp [startLoop, hr, hrep, hc]
  | succ k ih =>
    intro fuel retries j d h now sends hto hfuel hbud hceil
    obtain ⟨f, rfl⟩ : ∃ f, fuel = f + 1 := ⟨fuel - 1, by omega⟩
    have hr : (0 : Int) < retries := by
      have : ((k : Int) + 1) < retries := by exact_mod_cast hbud
      omega
    have hrep : env.reply j = none := by simpa using hto 0 (Nat.zero_le _)
    by_cases hc : d.StartedAt + abandonCeiling < now + interval
    · simp [startLoop, hr, hrep, hc]
    · have hstep :
          startLoop env interval pb (f + 1) retries j d h now sends =
          startLoop env interval pb f (retries - 1) (j + 1)
            { d with State := stateSent }
            { h with State := stateSent, LastDeployedAt := some now }
            (now + interval)
            (sends ++ [{ Host := h.Name, Playbook := d.Playbook,
                         Payload := pb.EncryptedString h.Name, Deploy := d.ID }]) := by
        simp [startLoop, hr, hrep, hc]
      rw [hstep]
      apply ih
      · intro i hi
        have := hto (i + 1) (by omega)
        rwa [show j + (i + 1) = j + 1 + i from by omega] at this
      · omega
      · have : ((k : Int) + 1) < retries := by exact_mod_cast hbud
        omega
      · have hmul : (k + 1 + 1) * interval = (k + 1) * interval + interval := by
          ring
        rw [hmul] at hceil
        show d.StartedAt + abandonCeiling < now + interval + (k + 1) * interval
        linarith

/-- C2: whenever the request/reply attempts keep timing out and the elapsed
time since the deploy started passes the one-hour abandonment ceiling while
retry budget still remains, `deploy.Start` transitions the deploy and its
host to the Error state with message "abandoned", records the error
timestamp, and returns without entering the terminal-outcome wait — the
ceiling check takes precedence over the remaining retry budget, which here is
an arbitrary `retries > k`. -/
theorem c2_abandonment_ceiling (env : BusEnv) (retries : Int) (interval : Nat)
    (d0 : deploy) (h0 : host) (pb : playbook) (now0 : Nat) (k : Nat)
    (hto : ∀ i, i ≤ k → env.reply i = none)
    (hbud : (k : Int) < retries)
    (hceil : abandonCeiling < (k + 1) * interval) :
    (deployStart env retries interval d0 h0 pb now0).d.State = stateError ∧
    (deployStart env retries interval d0 h0 pb now0).d.Error = "abandoned" ∧
    (deployStart env retries interval d0 h0 pb now0).d.ErrorAt.isSome = true ∧
    (deployStart env retries interval d0 h0 pb now0).h.State = stateError ∧
    (deployStart env retries interval d0 h0 pb now0).enteredTerminalWait = false := by
  have hfuel : k < retries.toNat := by omega
  have hL := startLoop_abandons env interval pb k retries.toNat retries 0
      (startDeploy d0 now0) (startHost h0 pb) now0 []
      (by intro i hi; simpa using hto i hi) hfuel hbud
      (by simpa [startDeploy] using Nat.add_lt_add_left hceil now0)
  obtain ⟨hab, h1, h2, h3, h4⟩ := hL
  have hr : startLoopOf env retries interval d0 h0 pb now0 =
      startLoop env interval pb retries.toNat retries 0
        (startDeploy d0 now0) (startHost h0 pb) now0 [] := rfl
  simp only [deployStart, hr, hab, if_true]
  exact ⟨h1, h2, h3, h4, trivial⟩

/-- C2 witness: a concrete silent bus, one attempt of 3601 seconds, budget
one retry; the deploy is abandoned. -/
theorem c2_witness :
    (deployStart envSilent 1 3601 deployA hostA pbA 0).d.State = stateError ∧
    (deployStart envSilent 1 3601 deployA hostA pbA 0).d.Error = "abandoned" ∧
    (deployStart envSilent 1 3601 deployA hostA pbA 0).d.ErrorAt.isSome = true ∧
    (deployStart envSilent 1 3601 deployA hostA pbA 0).h.State = stateError ∧
    (deployStart envSilent 1 3601 deployA hostA pbA 0).enteredTerminalWait = false :=
  c2_abandonment_ceiling envSilent 1 3601 deployA hostA pbA 0 0
    (fun _ _ => rfl) (by decide) (by decide)

/-! ## Discovery lemmas and C8 -/

/-- A discovery step for one host identifier leaves every other key of the
host store untouched. -/
theorem identifyStep_ne (now : Nat) (ef sf : String → Bool)
    (store : String → Option host) (x y : String) (hne : x ≠ y) :
    identifyStep now ef sf store x y = store y := by
  unfold identifyStep
  by_cases hef : ef x
  · simp [hef]
  · rcases hsx : store x with _ | r
    · by_cases hsf : sf x
      · simp [hef, hsx, hsf]
      · simp [hef, hsx, hsf, Ne.symm hne]
    · by_cases hsf : sf x
      · simp [hef, hsx, hsf]
      · simp [hef, hsx, hsf, Ne.symm hne]

/-- A discovery step for host `y` (with its store calls succeeding) leaves at
key `y` exactly the touched or freshly created record. -/
theorem identifyStep_self (now : Nat) (ef sf : String → Bool)
    (store : String → Option host) (y : String)
    (hef : ef y = false) (hsf : sf y = false) :
    identifyStep now ef sf store y y = some (touchOrCreate y now (store y)) := by
  unfold identifyStep touchOrCreate
  rcases hsy : store y with _ | r <;> simp [hef, hsf, hsy]

/-- A discovery cycle leaves keys it did not collect untouched. -/
theorem identifyAndSave_not_mem (now : Nat) (ef sf : String → Bool) :
    ∀ (hosts : List String) (store : String → Option host) (y : String),
      y ∉ hosts → identifyAndSave now ef sf store hosts y = store y := by
  intro hosts
  induction hosts with
  | nil => intro store y _; rfl
  | cons x xs ih =>
    intro store y hy
    have hxy : x ≠ y := fun he => hy (he ▸ List.mem_cons_self x xs)
    have hyxs : y ∉ xs := fun hm => hy (List.mem_cons_of_mem _ hm)
    simp only [identifyAndSave, List.foldl_cons]
    have := ih (identifyStep now ef sf store x) y hyxs
    simp only [identifyAndSave] at this
    rw [this, identifyStep_ne now ef sf store x y hxy]

/-- C8: for every host identifier collected in a discovery cycle (with the
per-host store calls succeeding), if a record already existed the cycle's
only write to it is the last-seen timestamp — every other field, in
particular all deployment-state fields, is left unchanged, and no second
record is created; if no record existed, a fresh Host with state New and
last-seen now is created. -/
theorem c8_discovery_touch_or_create (now : Nat) (ef sf : String → Bool)
    (hef : ∀ x, ef x = false) (hsf : ∀ x, sf x = false) :
    ∀ (hosts : List String) (store : String → Option host) (y : String),
      y ∈ hosts →
      identifyAndSave now ef sf store hosts y =
        some (touchOrCreate y now (store y)) := by
  intro hosts
  induction hosts with
  | nil => intro store y hy; exact absurd hy (List.not_mem_nil y)
  | cons x xs ih =>
    intro store y hy
    simp only [identifyAndSave, List.foldl_cons]
    by_cases hmem : y ∈ xs
    · have hrec := ih (identifyStep now ef sf store x) y hmem
      simp only [identifyAndSave] at hrec
      rw [hrec]
      by_cases hxy : x = y
      · subst hxy
        rw [identifyStep_self now ef sf store x (hef x) (hsf x)]
        rcases store x with _ | r <;> simp [touchOrCreate, freshHost]
      · rw [identifyStep_ne now ef sf store x y hxy]
    · have hx : x = y := by
        rcases List.mem_cons.mp hy with h | h
        · exact h.symm
        · exact absurd h hmem
      subst hx
      have := identifyAndSave_not_mem now ef sf xs (identifyStep now ef sf store x) x hmem
      simp only [identifyAndSave] at this
      rw [this]
      exact identifyStep_self now ef sf store x (hef x) (hsf x)

/-- C8 witness: a cycle over a known host and an unknown host touches the
known record's last-seen only and creates the fresh record. -/
theorem c8_witness :
    identifyAndSave 9 (fun _ => false) (fun _ => false) storeW
        ["web1", "db1"] "web1" = some (touchOrCreate "web1" 9 (storeW "web1")) ∧
    identifyAndSave 9 (fun _ => false) (fun _ => false) storeW
        ["web1", "db1"] "db1" = some (touchOrCreate "db1" 9 (storeW "db1")) :=
  ⟨c8_discovery_touch_or_create 9 (fun _ => false) (fun _ => false)
      (fun _ => rfl) (fun _ => rfl) ["web1", "db1"] storeW "web1" (by decide),
   c8_discovery_touch_or_create 9 (fun _ => false) (fun _ => false)
      (fun _ => rfl) (fun _ => rfl) ["web1", "db1"] storeW "db1" (by decide)⟩

/-! ## Group dispatch lemmas and C7 -/

theorem getv_replace (k v : String) :
    ∀ m : List (String × String), m.any (fun p => p.1 = k) = true →
      getv (m.map (fun p => if p.1 = k then (k, v) else p)) k = some v := by
  intro m
  induction m with
  | nil => intro h; simp at h
  | cons p rest ih =>
    intro h
    by_cases hp : p.1 = k
    · simp [getv, hp]
    · have hr : rest.any (fun p => p.1 = k) = true := by
        simp [List.any_cons, hp] at h
        simpa using h
      simpa [getv, hp] using ih hr

theorem getv_append_single (k v : String) :
    ∀ m : List (String × String), m.any (fun p => p.1 = k) = false →
      getv (m ++ [(k, v)]) k = some v := by
  intro m
  induction m with
  | nil => intro _; simp [getv]
  | cons p rest ih =>
    intro h
    simp [List.any_cons] at h
    simpa [getv, h.1] using ih (by simpa using h.2)

theorem getv_upsert_self (m : List (String × String)) (k v : String) :
    getv (upsert m k v) k = some v := by
  unfold upsert
  by_cases hany : m.any (fun p => p.1 = k) = true
  · simp only [hany, if_true]
    exact getv_replace k v m hany
  · have hf : m.any (fun p => p.1 = k) = false := by
      cases hb : m.any (fun p => p.1 = k)
      · rfl
      · exact absurd hb hany
    simp only [hf, Bool.false_eq_true, if_false]
    exact getv_append_single k v m hf

theorem getv_replace_ne (k v q : String) (hne : k ≠ q) :
    ∀ m : List (String × String),
      getv (m.map (fun p => if p.1 = k then (k, v) else p)) q = getv m q := by
  intro m
  induction m with
  | nil => rfl
  | cons p rest ih =>
    by_cases hp : p.1 = k
    · simp [getv, hp, hne, ih]
    · simp [getv, hp, ih]

theorem getv_append_single_ne (k v q : String) (hne : k ≠ q) :
    ∀ m : List (String × String), getv (m ++ [(k, v)]) q = getv m q := by
  intro m
  induction m with
  | nil => simp [getv, hne]
  | cons p rest ih =>
    by_cases hp : p.1 = q <;> simp [getv, hp, ih]

theorem getv_upsert_ne (m : List (String × String)) (k v q : String)
    (hne : k ≠ q) : getv (upsert m k v) q = getv m q := by
  unfold upsert
  by_cases hany : m.any (fun p => p.1 = k) = true
  · simp only [hany, if_true]
    exact getv_replace_ne k v q hne m
  · have hf : m.any (fun p => p.1 = k) = false := by
      cases hb : m.any (fun p => p.1 = k)
      · rfl
      · exact absurd hb hany
    simp only [hf, Bool.false_eq_true, if_false]
    exact getv_append_single_ne k v q hne m

/-- One dispatch-loop iteration touches only its own hostname's entries. -/
theorem deployGroupStep_ne (env : DispatchEnv) (pb : playbook)
    (acc : List (String × String) × List (String × String)) (x q : String)
    (hne : x ≠ q) :
    getv (deployGroupStep env pb acc x).1 q = getv acc.1 q ∧
    getv (deployGroupStep env pb acc x).2 q = getv acc.2 q := by
  unfold deployGroupStep
  rcases hfx : env.hostFind x with e | hh
  · simp [getv_upsert_ne _ _ _ _ hne]
  · rcases hsx : env.deploySaveErr (newDeploy hh pb) with _ | e <;>
      simp [hsx, getv_upsert_ne _ _ _ _ hne]

/-- The dispatch fold leaves hostnames it does not process untouched. -/
theorem dispatch_fold_preserves (env : DispatchEnv) (pb : playbook) :
    ∀ (xs : List String)
      (r : List (String × String) × List (String × String)) (x : String),
      x ∉ xs →
      getv (xs.foldl (deployGroupStep env pb) r).1 x = getv r.1 x ∧
      getv (xs.foldl (deployGroupStep env pb) r).2 x = getv r.2 x := by
  intro xs
  induction xs with
  | nil => intro r x _; exact ⟨rfl, rfl⟩
  | cons z zs ih =>
    intro r x hx
    have hz : z ≠ x := fun he => hx (he ▸ List.mem_cons_self z zs)
    have hzs : x ∉ zs := fun hm => hx (List.mem_cons_of_mem _ hm)
    simp only [List.foldl_cons]
    have hstep := deployGroupStep_ne env pb r z x hz
    have hrec := ih (deployGroupStep env pb r z) x hzs
    rw [hstep.1, hstep.2] at hrec
    exact hrec

/-- What the dispatch fold leaves under a hostname it processed exactly
once. -/
theorem dispatch_fold_entry (env : DispatchEnv) (pb : playbook) :
    ∀ (hosts : List String)
      (acc : List (String × String) × List (String × String)) (q : String),
      hosts.Nodup → q ∈ hosts →
      getv (hosts.foldl (deployGroupStep env pb) acc).1 q =
        (match env.hostFind q with
         | Except.error e => some e
         | Except.ok hh =>
           match env.deploySaveErr (newDeploy hh pb) with
           | some e => some e
           | none => getv acc.1 q) ∧
      getv (hosts.foldl (deployGroupStep env pb) acc).2 q =
        (match env.hostFind q with
         | Except.error _ => getv acc.2 q
         | Except.ok hh =>
           match env.deploySaveErr (newDeploy hh pb) with
           | some _ => getv acc.2 q
           | none => some (newDeploy hh pb).ID) := by
  intro hosts
  induction hosts with
  | nil => intro acc q _ hq; exact absurd hq (List.not_mem_nil q)
  | cons x xs ih =>
    intro acc q hnd hq
    have hx_not : x ∉ xs := (List.nodup_cons.mp hnd).1
    have hxs_nd : xs.Nodup := (List.nodup_cons.mp hnd).2
    simp only [List.foldl_cons]
    by_cases hmem : q ∈ xs
    · have hxq : x ≠ q := fun he => hx_not (he ▸ hmem)
      have hpres := deployGroupStep_ne env pb acc x q hxq
      have := ih (deployGroupStep env pb acc x) q hxs_nd hmem
      rw [hpres.1, hpres.2] at this
      exact this
    · have hxq : x = q := by
        rcases List.mem_cons.mp hq with h | h
        · exact h.symm
        · exact absurd h hmem
      subst hxq
      have hr := dispatch_fold_preserves env pb xs
        (deployGroupStep env pb acc x) x hmem
      rw [hr.1, hr.2]
      unfold deployGroupStep
      rcases hfx : env.hostFind x with e | hh
      · simp [getv_upsert_self]
      · rcases hsx : env.deploySaveErr (newDeploy hh pb) with _ | e <;>
          simp [hsx, getv_upsert_self]

/-- C7: in a group dispatch over distinct hosts, every host whose record
lookup or deploy save fails at construction time lands in the `errors` map
under its hostname with the error message while dispatch continues with the
remaining hosts; every successfully started host lands in the `started` map
under its hostname with its deploy's ID; and the dispatch reports 202
(accepted) iff `started` is non-empty, 500 otherwise. -/
theorem c7_group_dispatch (env : DispatchEnv) (pb : playbook)
    (hosts : List String) (hnd : hosts.Nodup) :
    (∀ q ∈ hosts, ∀ e, env.hostFind q = Except.error e →
        getv (handleDeployGroup env pb hosts).errors q = some e) ∧
    (∀ q ∈ hosts, ∀ hh, env.hostFind q = Except.ok hh →
        ∀ e, env.deploySaveErr (newDeploy hh pb) = some e →
        getv (handleDeployGroup env pb hosts).errors q = some e) ∧
    (∀ q ∈ hosts, ∀ hh, env.hostFind q = Except.ok hh →
        env.deploySaveErr (newDeploy hh pb) = none →
        getv (handleDeployGroup env pb hosts).started q =
          some (newDeploy hh pb).ID) ∧
    ((handleDeployGroup env pb hosts).code = 202 ↔
      (handleDeployGroup env pb hosts).started ≠ []) := by
  refine ⟨?_, ?_, ?_, ?_⟩
  · intro q hq e hfe
    have := (dispatch_fold_entry env pb hosts ([], []) q hnd hq).1
    simpa [handleDeployGroup, hfe] using this
  · intro q hq hh hfo e hse
    have := (dispatch_fold_entry env pb hosts ([], []) q hnd hq).1
    simpa [handleDeployGroup, hfo, hse] using this
  · intro q hq hh hfo hse
    have := (dispatch_fold_entry env pb hosts ([], []) q hnd hq).2
    simpa [handleDeployGroup, hfo, hse] using this
  · simp only [handleDeployGroup]
    by_cases hlen : (hosts.foldl (deployGroupStep env pb) ([], [])).2.length = 0
    · simp [hlen, List.length_eq_zero.mp hlen]
    · have hne : (hosts.foldl (deployGroupStep env pb) ([], [])).2 ≠ [] := by
        intro he
        exact hlen (by simp [he])
      simp [hlen, hne]

/-- C7 witness: over hosts `bad`, `sad`, `ok1`, the two construction-time
failures land in `errors`, the started host lands in `started` with its
deploy ID, and the dispatch is accepted iff `started` is non-empty. -/
theorem c7_witness :
    getv (handleDeployGroup envDispatch pbA ["bad", "sad", "ok1"]).errors "bad" =
      some "not found" ∧
    getv (handleDeployGroup envDispatch pbA ["bad", "sad", "ok1"]).errors "sad" =
      some "save failed" ∧
    getv (handleDeployGroup envDispatch pbA ["bad", "sad", "ok1"]).started "ok1" =
      some (newDeploy (freshHost "ok1" 0) pbA).ID ∧
    ((handleDeployGroup envDispatch pbA ["bad", "sad", "ok1"]).code = 202 ↔
      (handleDeployGroup envDispatch pbA ["bad", "sad", "ok1"]).started ≠ []) := by
  have h := c7_group_dispatch envDispatch pbA ["bad", "sad", "ok1"] (by decide)
  exact ⟨h.1 "bad" (by decide) "not found" rfl,
         h.2.1 "sad" (by decide) (freshHost "sad" 0) rfl "save failed" rfl,
         h.2.2.1 "ok1" (by decide) (freshHost "ok1" 0) rfl rfl,
         h.2.2.2⟩

/-! ## Envelope codec round-trip lemmas and C9 -/

/-- Decoding inverts the escape of one printable string: the parser returns
the original runes and leaves the input after the closing quote untouched. -/
theorem parseStr_escape :
    ∀ (s : List Char) (r : List Char), s.all printableB = true →
      parseStr (escapeChars s ++ '"' :: r) = some (s, r) := by
  intro s
  induction s with
  | nil =>
    intro r _
    rw [escapeChars, List.nil_append, parseStr.eq_def]
    simp
  | cons c cs ih =>
    intro r hall
    rw [List.all_cons, Bool.and_eq_true] at hall
    have hc : printableB c = true := hall.1
    have hcs : cs.all printableB = true := hall.2
    have hrange : 32 ≤ c.toNat ∧ c.toNat ≤ 126 := by
      simpa [printableB] using hc
    simp only [escapeChars, List.append_assoc]
    by_cases h1 : c = '"'
    · subst h1
      rw [show escChar '"' = ['\\', '"'] from rfl]
      rw [List.cons_append, List.cons_append, parseStr.eq_def]
      simp [unescapeChar, ih r hcs]
    · by_cases h2 : c = '\\'
      · subst h2
        rw [show escChar '\\' = ['\\', '\\'] from rfl]
        rw [List.cons_append, List.cons_append, parseStr.eq_def]
        simp [unescapeChar, ih r hcs]
      · have h3 : c ≠ '\n' := fun he => absurd (he ▸ hrange.1) (by decide)
        have h4 : c ≠ '\r' := fun he => absurd (he ▸ hrange.1) (by decide)
        have h5 : c ≠ '\t' := fun he => absurd (he ▸ hrange.1) (by decide)
        have h6 : ¬c.toNat < 32 := by omega
        have h9 : ¬c.toNat = 8232 := by omega
        have h10 : ¬c.toNat = 8233 := by omega
        by_cases h7 : c = '<'
        · subst h7
          rw [show escChar '<' = ['\\', 'u', '0', '0', '3', 'c'] from rfl]
          simp only [List.cons_append]
          rw [parseStr.eq_def]
          simp [hexVal, ih r hcs]
        · by_cases h8 : c = '>'
          · subst h8
            rw [show escChar '>' = ['\\', 'u', '0', '0', '3', 'e'] from rfl]
            simp only [List.cons_append]
            rw [parseStr.eq_def]
            simp [hexVal, ih r hcs]
          · by_cases h11 : c = '&'
            · subst h11
              rw [show escChar '&' = ['\\', 'u', '0', '0', '2', '6'] from rfl]
              simp only [List.cons_append]
              rw [parseStr.eq_def]
              simp [hexVal, ih r hcs]
            · rw [show escChar c = [c] from by
                simp [escChar, h1, h2, h3, h4, h5, h6, h7, h8, h9, h10, h11]]
              rw [List.cons_append, List.nil_append, parseStr.eq_def]
              simp [h1, h2, ih r hcs]

/-- Decoding inverts the encoding of a non-empty member section: the parser
folds the members into the accumulator and stops right after the closing
brace. -/
theorem parseMembers_enc :
    ∀ (entries : List (String × String)) (fuel : Nat) (m : NansibleMessage)
      (rest : List Char),
      entries.length ≤ fuel → entries ≠ [] →
      (∀ p ∈ entries,
        p.1.data.all printableB = true ∧ p.2.data.all printableB = true) →
      parseMembers fuel (encEntries entries ++ '}' :: rest) m =
        some (entries.foldl (fun acc p => setField acc p.1.data p.2.data) m,
          rest) := by
  intro entries
  induction entries with
  | nil => intro fuel m rest _ hne _; exact absurd rfl hne
  | cons e es ih =>
    intro fuel m rest hlen hne hprint
    obtain ⟨n, v⟩ := e
    obtain ⟨f, rfl⟩ : ∃ f, fuel = f + 1 := ⟨fuel - 1, by simp at hlen; omega⟩
    have hn : n.data.all printableB = true :=
      (hprint (n, v) (List.mem_cons_self _ _)).1
    have hv : v.data.all printableB = true :=
      (hprint (n, v) (List.mem_cons_self _ _)).2
    cases es with
    | nil =>
      have hform : encEntries [(n, v)] ++ '}' :: rest =
          '"' :: (escapeChars n.data ++
            '"' :: ':' :: '"' :: (escapeChars v.data ++ '"' :: '}' :: rest)) := by
        simp [encEntries, fieldEnc, encodeString]
      rw [hform, parseMembers.eq_def]
      simp [parseStr_escape n.data _ hn, parseStr_escape v.data _ hv]
    | cons e2 es2 =>
      have hform : encEntries ((n, v) :: e2 :: es2) ++ '}' :: rest =
          '"' :: (escapeChars n.data ++
            '"' :: ':' :: '"' :: (escapeChars v.data ++
              '"' :: ',' :: (encEntries (e2 :: es2) ++ '}' :: rest))) := by
        simp [encEntries, fieldEnc, encodeString]
      rw [hform, parseMembers.eq_def]
      have hrec := ih f (setField m n.data v.data) rest
        (by simp at hlen ⊢; omega) (by simp)
        (fun p hp => hprint p (List.mem_cons_of_mem _ hp))
      simp [parseStr_escape n.data _ hn, parseStr_escape v.data _ hv, hrec]

/-- Each member contributes at least one character to the encoded section. -/
theorem encEntries_length :
    ∀ entries : List (String × String),
      entries.length ≤ (encEntries entries).length := by
  intro entries
  induction entries with
  | nil => simp [encEntries]
  | cons e es ih =>
    obtain ⟨n, v⟩ := e
    have h1 : 0 < (fieldEnc n v).length := by
      simp [fieldEnc, encodeString]
    cases es with
    | nil => simpa [encEntries] using h1
    | cons e2 es2 =>
      have hE : encEntries ((n, v) :: e2 :: es2) =
          fieldEnc n v ++ ',' :: encEntries (e2 :: es2) := rfl
      rw [hE]
      have := ih
      simp only [List.length_cons, List.length_append] at this ⊢
      omega

/-- A non-empty encoded member section starts with a quote. -/
theorem encEntries_cons_head (n v : String) (es : List (String × String)) :
    ∃ t, encEntries ((n, v) :: es) = '"' :: t := by
  cases es with
  | nil =>
    refine ⟨escapeChars n.data ++ '"' :: ':' :: encodeString v, ?_⟩
    simp [encEntries, fieldEnc, encodeString]
  | cons e2 es2 =>
    refine ⟨escapeChars n.data ++
      '"' :: ':' :: (encodeString v ++ ',' :: encEntries (e2 :: es2)), ?_⟩
    simp [encEntries, fieldEnc, encodeString]

/-- Folding the emitted members back into a fresh envelope recovers the
original: omitted fields stay at their zero value, present fields are
reassigned verbatim. -/
theorem foldl_setField_entriesOf (m : NansibleMessage) :
    (entriesOf m).foldl (fun acc p => setField acc p.1.data p.2.data) {} = m := by
  obtain ⟨a, b, c, d, e⟩ := m
  by_cases ha : a = "" <;> by_cases hb : b = "" <;> by_cases hcc : c = "" <;>
    by_cases hd : d = "" <;> by_cases he : e = "" <;>
    simp +decide [entriesOf, setField, ha, hb, hcc, hd, he]

/-- An envelope that emits no members is the zero envelope. -/
theorem entriesOf_nil (m : NansibleMessage) (h : entriesOf m = []) : m = {} := by
  obtain ⟨a, b, c, d, e⟩ := m
  simp [entriesOf, List.filter_eq_nil_iff] at h
  obtain ⟨ha, hb, hcc, hd, he⟩ := h
  subst ha hb hcc hd he
  rfl

/-- Parsing the full encoded object of a non-empty envelope folds its members
into a fresh envelope. -/
theorem parseNanMsg_format (n v : String) (es : List (String × String))
    (hprint : ∀ p ∈ (n, v) :: es,
      p.1.data.all printableB = true ∧ p.2.data.all printableB = true) :
    parseNanMsg ('{' :: (encEntries ((n, v) :: es) ++ ['}'])) =
      some (((n, v) :: es).foldl
        (fun acc p => setField acc p.1.data p.2.data) {}) := by
  obtain ⟨T, hT⟩ := encEntries_cons_head n v es
  have hlen : ((n, v) :: es).length ≤
      (encEntries ((n, v) :: es) ++ ['}']).length := by
    have := encEntries_length ((n, v) :: es)
    simp only [List.length_append, List.length_cons] at this ⊢
    omega
  have hpm := parseMembers_enc ((n, v) :: es)
      ((encEntries ((n, v) :: es) ++ ['}']).length) {} [] hlen
      (by simp) hprint
  have hTT : encEntries ((n, v) :: es) ++ ['}'] = '"' :: (T ++ ['}']) := by
    rw [hT]
    rfl
  have hred : parseNanMsg ('{' :: ('"' :: (T ++ ['}']))) =
      (match parseMembers ('"' :: (T ++ ['}'])).length ('"' :: (T ++ ['}'])) {} with
       | some (m1, r2) => if r2 = [] then some m1 else none
       | none => none) := rfl
  rw [show ('{' :: (encEntries ((n, v) :: es) ++ ['}'])) =
      '{' :: ('"' :: (T ++ ['}'])) from by rw [hTT]]
  rw [hred, ← hTT, hpm]
  rfl

/-- C9: encoding a dispatch envelope whose fields are printable strings and
decoding the bytes on the agent side recovers the envelope unchanged — in
particular host, playbook and deploy ID survive the round trip. -/
theorem c9_roundtrip (m : NansibleMessage)
    (h1 : m.Host.data.all printableB = true)
    (h2 : m.Playbook.data.all printableB = true)
    (h3 : m.Payload.data.all printableB = true)
    (h4 : m.Deploy.data.all printableB = true)
    (h5 : m.Error.data.all printableB = true) :
    parseNanMsg (nanBytes m) = some m := by
  have hprint : ∀ p ∈ entriesOf m,
      p.1.data.all printableB = true ∧ p.2.data.all printableB = true := by
    intro p hp
    have hp5 := (List.mem_filter.mp hp).1
    simp only [List.mem_cons, List.not_mem_nil, or_false] at hp5
    rcases hp5 with h | h | h | h | h <;> subst h <;>
      exact ⟨by simp +decide, by assumption⟩
  rcases hE : entriesOf m with _ | ⟨⟨n, v⟩, es⟩
  · have hm : m = {} := entriesOf_nil m hE
    subst hm
    decide
  · have hprint' : ∀ p ∈ (n, v) :: es,
        p.1.data.all printableB = true ∧ p.2.data.all printableB = true :=
      hE ▸ hprint
    have hfmt := parseNanMsg_format n v es hprint'
    have hnb : nanBytes m = '{' :: (encEntries ((n, v) :: es) ++ ['}']) := by
      simp only [nanBytes, hE]
    rw [hnb, hfmt]
    have hfold := foldl_setField_entriesOf m
    rw [hE] at hfold
    rw [hfold]

/-- C9 witness: a concrete envelope with quotes, backslashes and
HTML-escaped characters in its fields survives the round trip. -/
theorem c9_witness :
    parseNanMsg (nanBytes
      { Host := "web1", Playbook := "p b", Payload := "x<&>\"y\\z",
        Deploy := "id-1", Error := "" }) =
      some { Host := "web1", Playbook := "p b", Payload := "x<&>\"y\\z",
             Deploy := "id-1", Error := "" } :=
  c9_roundtrip _ (by decide) (by decide) (by decide) (by decide) (by decide)

end Nansible
